import Mathlib

/-!
Verification development for the SwishPot betting engine.

The definitions below are a shallow embedding of the engine code:
the bet-slip construction, conflict detection and odds aggregation of
src/context/BetSlipContext.jsx, the settlement ledger (placeBet and
getOrCreateUserBalance) and leaderboard ranking of the appwrite service
module, and the weekly period scheduler (getWeekBounds, getWeekNumber,
getSeasonYear).  JavaScript numbers are modelled as rationals, JavaScript
strings as Lean strings, nullable fields as Option, and the document store
as an explicit record of collections threaded through the operations.
-/

namespace Swishpot

/-- The characters of pat are a leading segment of s: shallow embedding of
JavaScript s.startsWith(pat) on the underlying character lists. -/
def charsLeadWith (pat s : List Char) : Bool :=
  match pat, s with
  | [], _ => true
  | _ :: _, [] => false
  | a :: as, b :: bs => a == b && charsLeadWith as bs

/-- JavaScript s.startsWith(pat). -/
def strStartsWith (s pat : String) : Bool :=
  charsLeadWith pat.data s.data

/-- JavaScript s.includes(pat): pat occurs as a contiguous substring of s. -/
def charsContain (s pat : List Char) : Bool :=
  charsLeadWith pat s ||
    match s with
    | [] => false
    | _ :: rest => charsContain rest pat

/-- JavaScript s.includes(pat) on Lean strings. -/
def strIncludes (s pat : String) : Bool :=
  charsContain s.data pat.data

/-- JavaScript s.split(" ")[0]: the characters of s before the first space. -/
def firstWord (s : String) : String :=
  String.mk (s.data.takeWhile (fun c => !(c == ' ')))

/-- A user's chosen pick (SelectionItem): the object literal the Week page
passes to addSelection.  Selections produced by the UI carry marketType
h2h, spreads, totals or a player_ prop type; playerName is set only on
player-prop selections. -/
structure SelectionItem where
  gameId : String
  gameDescription : String
  gameTime : String
  marketType : String
  selection : String
  odds : ℚ
  line : Option ℚ
  playerName : Option String
deriving DecidableEq

/-- The identity test of addSelection and isSelected: same
(gameId, marketType, selection) triple. -/
def sameTriple (item sel : SelectionItem) : Bool :=
  item.gameId == sel.gameId && item.marketType == sel.marketType &&
    item.selection == sel.selection

/-- The replacement test of addSelection: same (gameId, marketType) pair. -/
def sameMarket (item sel : SelectionItem) : Bool :=
  item.gameId == sel.gameId && item.marketType == sel.marketType

/-- addSelection of BetSlipContext: if the exact triple is already present,
remove it (the element at the index findIndex returns); otherwise drop any
item of the same (gameId, marketType) market and append the new selection. -/
def addSelection (sel : SelectionItem) (prev : List SelectionItem) : List SelectionItem :=
  match prev.findIdx? (fun item => sameTriple item sel) with
  | some existingIndex => prev.eraseIdx existingIndex
  | none => prev.filter (fun item => !(sameMarket item sel)) ++ [sel]

/-- removeSelection of BetSlipContext: drop the item at the given index. -/
def removeSelection (index : ℕ) (prev : List SelectionItem) : List SelectionItem :=
  prev.eraseIdx index

/-- clearBetSlip of BetSlipContext: the slip becomes empty. -/
def clearBetSlip : List SelectionItem :=
  []

/-- rawOdds: the product of the selections' odds, folded from 1 as the
JavaScript reduce does. -/
def rawOdds (items : List SelectionItem) : ℚ :=
  items.foldl (fun total item => total * item.odds) 1

/-- isSGM: more than one selection and all selections share the first
selection's gameId. -/
def isSGM (items : List SelectionItem) : Bool :=
  items.length > 1 &&
    match items with
    | [] => true
    | first :: _ => items.all (fun item => item.gameId == first.gameId)

/-- calculateCorrelationFactor of BetSlipContext.  Note the literal strings:
the h2h check matches the marketType h2h that the UI produces, but the
spread and total checks look for the singular spellings spread and total,
while the odds normalizer and the Week page produce spreads and totals. -/
def calculateCorrelationFactor (items : List SelectionItem) : ℚ :=
  let hasH2H := items.any (fun i => i.marketType == "h2h")
  let hasSpread := items.any (fun i => i.marketType == "spread")
  let hasTotal := items.any (fun i => i.marketType == "total")
  let hasPlayerProps := items.any (fun i => strStartsWith i.marketType "player_")
  let factor1 : ℚ :=
    if hasH2H && hasSpread then
      match items.find? (fun i => i.marketType == "h2h"),
            items.find? (fun i => i.marketType == "spread") with
      | some h2hItem, some spreadItem =>
          if h2hItem.selection == firstWord spreadItem.selection then 9 / 10 else 1
      | _, _ => 1
    else 1
  let factor2 : ℚ :=
    if hasPlayerProps && (hasH2H || hasSpread || hasTotal) then 19 / 20 else 1
  factor1 * factor2

/-- The correlation factor actually applied: only same-game multis get the
calculateCorrelationFactor discount. -/
def correlationFactor (items : List SelectionItem) : ℚ :=
  if isSGM items then calculateCorrelationFactor items else 1

/-- totalOdds of BetSlipContext: raw product times the correlation factor. -/
def totalOdds (items : List SelectionItem) : ℚ :=
  rawOdds items * correlationFactor items

/-- potentialPayout of BetSlipContext. -/
def potentialPayout (stake : ℚ) (items : List SelectionItem) : ℚ :=
  stake * totalOdds items

/-- A conflict record of getConflicts. -/
structure Conflict where
  type : String
  message : String
deriving DecidableEq

/-- Keys of a JavaScript object built by insertion, in first-occurrence
order: the iteration order of Object.entries over the group maps that
getConflicts builds. -/
def insertionKeys {α : Type} (f : α → String) (l : List α) : List String :=
  l.foldl (fun acc x => if acc.contains (f x) then acc else acc ++ [f x]) []

/-- A selection whose marketType starts with player_. -/
def isPlayerProp (i : SelectionItem) : Bool :=
  strStartsWith i.marketType "player_"

/-- The grouping key of the player-prop conflict check: the template string
playerName dash marketType, with a missing playerName printing as the
JavaScript text undefined. -/
def propKey (p : SelectionItem) : String :=
  (p.playerName.getD "undefined") ++ "-" ++ p.marketType

/-- The head-to-head clause of getConflicts for one game's selections. -/
def h2hConflicts (gameItems : List SelectionItem) : List Conflict :=
  if (gameItems.filter (fun i => i.marketType == "h2h")).length > 1 then
    [⟨"h2h_conflict", "Cannot select both teams to win the same game"⟩]
  else []

/-- The totals clause of getConflicts for one game's selections. -/
def totalConflicts (gameItems : List SelectionItem) : List Conflict :=
  let totalItems := gameItems.filter (fun i => i.marketType == "total")
  if totalItems.length > 1 then
    if totalItems.any (fun i => strIncludes i.selection "Over") &&
        totalItems.any (fun i => strIncludes i.selection "Under") then
      [⟨"total_conflict", "Cannot select both Over and Under for the same total"⟩]
    else []
  else []

/-- The player-prop clause of getConflicts for one game's selections: group
the player_ selections by propKey and raise one conflict per group holding
more than one selection, naming the group's first selection's player. -/
def propConflicts (gameItems : List SelectionItem) : List Conflict :=
  let playerProps := gameItems.filter isPlayerProp
  (insertionKeys propKey playerProps).filterMap (fun key =>
    match playerProps.filter (fun p => propKey p == key) with
    | p1 :: _ :: _ =>
        some ⟨"player_prop_conflict",
          "Cannot select both Over and Under for " ++ p1.playerName.getD "undefined"⟩
    | _ => none)

/-- getConflicts of BetSlipContext: group the slip by gameId in insertion
order and emit, per game, the head-to-head, totals and player-prop
conflicts in that order. -/
def getConflicts (items : List SelectionItem) : List Conflict :=
  (insertionKeys (fun i => i.gameId) items).flatMap (fun gameId =>
    let gameItems := items.filter (fun i => i.gameId == gameId)
    h2hConflicts gameItems ++ totalConflicts gameItems ++ propConflicts gameItems)

/-- hasConflict of BetSlipContext: the conflict list is non-empty. -/
def hasConflict (items : List SelectionItem) : Bool :=
  decide (0 < (getConflicts items).length)

/-- STARTING_BALANCE of config.js. -/
def STARTING_BALANCE : ℚ := 1000

/-- A week_balances document: the per-user, per-week ledger row. -/
structure WeekBalanceDoc where
  docId : ℕ
  weekid : String
  leagueid : String
  userid : String
  displayname : String
  balance : ℚ
  highestwinpayout : ℚ
  totalbets : ℤ
  lastwintime : Option ℤ
deriving DecidableEq

/-- A bets document as placeBet creates it (createdAt and settledAt, which
no claim concerns, are omitted). -/
structure BetDoc where
  docId : ℕ
  userId : String
  leagueId : String
  weekId : String
  betType : String
  stake : ℚ
  totalOdds : ℚ
  potentialPayout : ℚ
  status : String
deriving DecidableEq

/-- A bet_legs document as placeBet creates it (actualValue, which placeBet
always sets to null, is omitted). -/
structure BetLegDoc where
  betId : ℕ
  gameId : String
  gameDescription : String
  gameTime : String
  marketType : String
  selection : String
  odds : ℚ
  line : Option ℚ
  result : String
  playerName : Option String
deriving DecidableEq

/-- The slip object the bet panel passes to placeBet: the context value's
items, stake and computed odds fields. -/
structure BetSlip where
  items : List SelectionItem
  stake : ℚ
  totalOdds : ℚ
  potentialPayout : ℚ

/-- The document store collections that placeBet touches, with a counter
standing in for ID.unique(). -/
structure Store where
  balances : List WeekBalanceDoc
  bets : List BetDoc
  legs : List BetLegDoc
  nextId : ℕ
deriving DecidableEq

/-- getOrCreateUserBalance: return the first week_balances document matching
the (weekid, userid) pair, or create one seeded at STARTING_BALANCE. -/
def getOrCreateUserBalance (weekId leagueId userId displayName : String)
    (db : Store) : WeekBalanceDoc × Store :=
  match db.balances.find? (fun b => b.weekid == weekId && b.userid == userId) with
  | some balance => (balance, db)
  | none =>
      let doc : WeekBalanceDoc :=
        { docId := db.nextId, weekid := weekId, leagueid := leagueId,
          userid := userId, displayname := displayName,
          balance := STARTING_BALANCE, highestwinpayout := 0,
          totalbets := 0, lastwintime := none }
      (doc, { db with balances := db.balances ++ [doc], nextId := db.nextId + 1 })

/-- The bet_legs document placeBet creates for one slip item.  The
JavaScript item.line and item.playerName fall back to null through the
or-null idiom, which also maps the falsy values 0 and the empty string to
null. -/
def mkBetLeg (betId : ℕ) (item : SelectionItem) : BetLegDoc :=
  { betId := betId, gameId := item.gameId,
    gameDescription := item.gameDescription, gameTime := item.gameTime,
    marketType := item.marketType, selection := item.selection,
    odds := item.odds,
    line := item.line.bind (fun l => if l = 0 then none else some l),
    result := "pending",
    playerName := item.playerName.bind (fun n => if n = "" then none else some n) }

/-- placeBet of the appwrite service: fetch or create the week balance,
throw Insufficient balance when the balance is below the stake, otherwise
create one bets document, one bet_legs document per slip item, and update
the balance document with the debited balance and incremented totalbets. -/
def placeBet (betSlip : BetSlip) (userId leagueId weekId displayName : String)
    (db : Store) : Except String BetDoc × Store :=
  let fetched := getOrCreateUserBalance weekId leagueId userId displayName db
  let balanceDoc := fetched.1
  let db1 := fetched.2
  if balanceDoc.balance < betSlip.stake then
    (Except.error "Insufficient balance", db1)
  else
    let bet : BetDoc :=
      { docId := db1.nextId, userId := userId, leagueId := leagueId,
        weekId := weekId,
        betType := if betSlip.items.length > 1 then "SGM" else "Single",
        stake := betSlip.stake, totalOdds := betSlip.totalOdds,
        potentialPayout := betSlip.potentialPayout, status := "pending" }
    let db2 := { db1 with bets := db1.bets ++ [bet], nextId := db1.nextId + 1 }
    let db3 := { db2 with legs := db2.legs ++ betSlip.items.map (mkBetLeg bet.docId) }
    let db4 := { db3 with
      balances := db3.balances.map (fun b =>
        if b.docId == balanceDoc.docId then
          { b with balance := balanceDoc.balance - betSlip.stake,
                   totalbets := balanceDoc.totalbets + 1 }
        else b) }
    (Except.ok bet, db4)

/-- The comparator of getLeaderboard: balance descending, then
highestwinpayout descending, then lastwintime ascending when both are set,
otherwise zero (keep fetch order). -/
def leaderboardCmp (a b : WeekBalanceDoc) : ℚ :=
  let balDiff := b.balance - a.balance
  if balDiff ≠ 0 then balDiff
  else
    let payDiff := b.highestwinpayout - a.highestwinpayout
    if payDiff ≠ 0 then payDiff
    else
      match a.lastwintime, b.lastwintime with
      | some ta, some tb => ((ta - tb : ℤ) : ℚ)
      | _, _ => 0

/-- The comparator read as a Boolean order: a sorts no later than b. -/
def leaderboardLE (a b : WeekBalanceDoc) : Bool :=
  decide (leaderboardCmp a b ≤ 0)

/-- One step of a stable comparison sort: place x after every already
placed entry that compares no later than x.  Array.prototype.sort is
specified as a stable sort with respect to the comparator. -/
def sortInsert (l : List WeekBalanceDoc) (x : WeekBalanceDoc) : List WeekBalanceDoc :=
  match l with
  | [] => [x]
  | y :: rest => if leaderboardLE y x then y :: sortInsert rest x else x :: y :: rest

/-- Stable sort of the balance rows under the leaderboard comparator. -/
def sortBalances (l : List WeekBalanceDoc) : List WeekBalanceDoc :=
  l.foldl sortInsert []

/-- getLeaderboard of the appwrite service: keep the week's balance rows,
sort them with the comparator, and attach the one-based rank. -/
def getLeaderboard (weekId : String) (allBalances : List WeekBalanceDoc) :
    List (WeekBalanceDoc × ℕ) :=
  let balances := allBalances.filter (fun b => b.weekid == weekId)
  (sortBalances balances).enum.map (fun p => (p.2, p.1 + 1))

/-- A civil date-time in the Australia/Sydney calendar, as getAESTDate
produces it: the JavaScript Date fields getFullYear, getMonth (zero
based) and getDate, plus the milliseconds elapsed since local midnight. -/
structure AESTDate where
  year : ℤ
  month : ℤ
  day : ℤ
  msOfDay : ℤ
deriving DecidableEq

/-- Days from the epoch date 1970-01-01 to the civil date year-month-day
(month one-based) in the proleptic Gregorian calendar: the day count
underlying a JavaScript Date, which also normalises out-of-range day
numbers such as the ones setDate produces. -/
def daysFromCivil (year month day : ℤ) : ℤ :=
  let y := if month ≤ 2 then year - 1 else year
  let era := y / 400
  let yoe := y - era * 400
  let mp := (month + 9) % 12
  let doy := (153 * mp + 2) / 5 + day - 1
  let doe := yoe * 365 + yoe / 4 - yoe / 100 + doy
  era * 146097 + doe - 719468

/-- The epoch day count of a civil instant's date. -/
def epochDays (d : AESTDate) : ℤ :=
  daysFromCivil d.year (d.month + 1) d.day

/-- JavaScript getDay: 0 is Sunday through 6 is Saturday; the epoch day
1970-01-01 was a Thursday, hence the offset 4.  Tuesday is 2. -/
def getDay (d : AESTDate) : ℤ :=
  (epochDays d + 4) % 7

/-- Milliseconds from the epoch to the instant, on the local civil scale
that getAESTDate puts every compared Date on. -/
def epochMs (d : AESTDate) : ℤ :=
  epochDays d * 86400000 + d.msOfDay

/-- A computed boundary instant: an epoch day count plus milliseconds
since that day's local midnight. -/
structure LocalStamp where
  days : ℤ
  ms : ℤ
deriving DecidableEq

/-- getWeekBounds: step back to the most recent Tuesday ((getDay + 5) mod 7
days ago), take local midnight as the start, and six days later at
23:59:59.999 as the end. -/
def getWeekBounds (now : AESTDate) : LocalStamp × LocalStamp :=
  let day := getDay now
  let daysFromTuesday := (day + 5) % 7
  let startDate : LocalStamp := ⟨epochDays now - daysFromTuesday, 0⟩
  let endDate : LocalStamp := ⟨startDate.days + 6, 86399999⟩
  (startDate, endDate)

/-- getWeekNumber: weeks elapsed since the season anchor October 22 of the
current year, rolled back one year when now precedes it, plus one,
floored at one. -/
def getWeekNumber (now : AESTDate) : ℤ :=
  let anchor := daysFromCivil now.year 10 22 * 86400000
  let startOfSeason :=
    if epochMs now < anchor then daysFromCivil (now.year - 1) 10 22 * 86400000
    else anchor
  let weekNum := (epochMs now - startOfSeason) / (7 * 24 * 60 * 60 * 1000) + 1
  max 1 weekNum

/-- getSeasonYear: the season's ending year, so one past the current year
from October (month index 9) onward. -/
def getSeasonYear (now : AESTDate) : ℤ :=
  if now.month ≥ 9 then now.year + 1 else now.year

/-- At most one selection per (gameId, marketType) pair: no two positions
of the slip share a market. -/
def InvMarket (s : List SelectionItem) : Prop :=
  s.Pairwise (fun a b => ¬(a.gameId = b.gameId ∧ a.marketType = b.marketType))

/-- The propKey grouping separates markets on this slip: selections whose
keys agree share their marketType.  This holds for every selection the
application builds, whose market types contain no dash. -/
def KeyInj (s : List SelectionItem) : Prop :=
  ∀ x ∈ s, ∀ y ∈ s, propKey x = propKey y → x.marketType = y.marketType

/-- Slip states reachable from the empty slip through the context's three
mutators. -/
inductive Reachable : List SelectionItem → Prop where
  | empty : Reachable []
  | add (sel : SelectionItem) {s : List SelectionItem} :
      Reachable s → Reachable (addSelection sel s)
  | remove (index : ℕ) {s : List SelectionItem} :
      Reachable s → Reachable (removeSelection index s)
  | clear {s : List SelectionItem} : Reachable s → Reachable clearBetSlip

/-- A head-to-head pick as the Week page builds it. -/
def selEx : SelectionItem :=
  ⟨"game1", "Kings @ Lakers", "2026-01-15T08:00:00Z", "h2h", "Lakers", 2, none, none⟩

/-- A spread pick as the Week page builds it: the normalizer and the page
label the market spreads, in the plural. -/
def spreadEx : SelectionItem :=
  ⟨"game1", "Kings @ Lakers", "2026-01-15T08:00:00Z", "spreads", "Lakers +5.5",
   19 / 10, some (11 / 2), none⟩

/-- The same spread pick relabelled with the singular market type spread
that config.js declares and calculateCorrelationFactor tests for. -/
def spreadSingularEx : SelectionItem :=
  ⟨"game1", "Kings @ Lakers", "2026-01-15T08:00:00Z", "spread", "Lakers +5.5",
   19 / 10, some (11 / 2), none⟩

/-- A player-points Over pick as the Week page builds it. -/
def propOverEx : SelectionItem :=
  ⟨"game1", "Kings @ Lakers", "2026-01-15T08:00:00Z", "player_points",
   "LeBron James Over 25.5", 19 / 10, some (51 / 2), some "LeBron James"⟩

/-- A second Over pick on the same player and prop type at another line. -/
def propOverEx2 : SelectionItem :=
  ⟨"game1", "Kings @ Lakers", "2026-01-15T08:00:00Z", "player_points",
   "LeBron James Over 30.5", 23 / 10, some (61 / 2), some "LeBron James"⟩

/-- A totals pick as the Week page builds it: market type totals, plural. -/
def totalsEx : SelectionItem :=
  ⟨"game1", "Kings @ Lakers", "2026-01-15T08:00:00Z", "totals", "Over 225.5",
   2, some (451 / 2), none⟩

/-- An adversarial selection whose playerName embeds a dash. -/
def oddKeyEx1 : SelectionItem :=
  ⟨"game1", "", "", "player_b", "s1", 2, none, some "A-player_a"⟩

/-- An adversarial selection whose marketType embeds a dash, colliding with
the previous selection's grouping key. -/
def oddKeyEx2 : SelectionItem :=
  ⟨"game1", "", "", "player_a-player_b", "s2", 2, none, some "A"⟩

/-- A second head-to-head pick on the same game and market. -/
def selOtherEx : SelectionItem :=
  ⟨"game1", "Kings @ Lakers", "2026-01-15T08:00:00Z", "h2h", "Kings", 19 / 10,
   none, none⟩

/-- A ledger row holding 50, below the example stake of 100. -/
def balanceLowEx : WeekBalanceDoc :=
  ⟨7, "week1", "league1", "user1", "Dana", 50, 0, 3, none⟩

/-- A store holding only the low balance row. -/
def storeLowEx : Store :=
  ⟨[balanceLowEx], [], [], 8⟩

/-- A ledger row holding 200, above the example stake of 100. -/
def balanceHighEx : WeekBalanceDoc :=
  ⟨7, "week1", "league1", "user1", "Dana", 200, 0, 3, none⟩

/-- A store holding only the high balance row. -/
def storeHighEx : Store :=
  ⟨[balanceHighEx], [], [], 8⟩

/-- A one-leg slip staking 100. -/
def slipStake100 : BetSlip :=
  ⟨[selEx], 100, 2, 200⟩

/-- Leaderboard example row A: balance 1200, payout 300. -/
def lbA : WeekBalanceDoc :=
  ⟨1, "week1", "league1", "ua", "A", 1200, 300, 5, some 500⟩

/-- Leaderboard example row B: balance 1200 and the higher payout 450. -/
def lbB : WeekBalanceDoc :=
  ⟨2, "week1", "league1", "ub", "B", 1200, 450, 6, some 700⟩

/-- Leaderboard example row C: balance 900. -/
def lbC : WeekBalanceDoc :=
  ⟨3, "week1", "league1", "uc", "C", 900, 0, 2, some 100⟩

/-- A sample evaluation instant: 2026-01-15, 01:00 local time. -/
def nowEx : AESTDate :=
  ⟨2026, 0, 15, 3600000⟩

/-- Helper: when every entry of the front segment fails the test and x
passes it, findIdx? locates x at the front segment's length. -/
theorem findIdx_of_split {α : Type} (p : α → Bool) (x : α) (l2 : List α)
    (hx : p x = true) :
    ∀ (l1 : List α) (start : ℕ), (∀ z ∈ l1, p z = false) →
      (l1 ++ x :: l2).findIdx? p start = some (start + l1.length) := by
  intro l1
  induction l1 with
  | nil => intro start h; simp [List.findIdx?, hx]
  | cons a t ih =>
      intro start h
      have ha : p a = false := h a (by simp)
      simp only [List.cons_append, List.findIdx?, ha, Bool.false_eq_true, if_false,
        List.append_eq]
      rw [ih (start + 1) (fun z hz => h z (by simp [hz]))]
      simp only [List.length_cons, Option.some.injEq]
      omega

/-- Helper: findIdx? returns none when every entry fails the test. -/
theorem findIdx_none_of_all {α : Type} (p : α → Bool) :
    ∀ (l : List α) (start : ℕ), (∀ z ∈ l, p z = false) →
      l.findIdx? p start = none := by
  intro l
  induction l with
  | nil => intro start _; rfl
  | cons a t ih =>
      intro start h
      have ha : p a = false := h a (by simp)
      simp only [List.findIdx?, ha, Bool.false_eq_true, if_false]
      exact ih (start + 1) (fun z hz => h z (by simp [hz]))

/-- Helper: erasing at the front segment's length removes exactly the
middle element. -/
theorem eraseIdx_append_length {α : Type} :
    ∀ (l1 : List α) (x : α) (l2 : List α),
      (l1 ++ x :: l2).eraseIdx l1.length = l1 ++ l2 := by
  intro l1
  induction l1 with
  | nil => intro x l2; rfl
  | cons a t ih => intro x l2; simp [List.eraseIdx, ih]

/-- Helper: a list with a passing entry splits at the first passing
entry. -/
theorem exists_first_split {α : Type} (p : α → Bool) :
    ∀ (l : List α), (∃ z ∈ l, p z = true) →
      ∃ l1 x l2, l = l1 ++ x :: l2 ∧ p x = true ∧ ∀ z ∈ l1, p z = false := by
  intro l
  induction l with
  | nil => rintro ⟨z, hz, -⟩; simp at hz
  | cons a t ih =>
      intro h
      cases hpa : p a with
      | true => exact ⟨[], a, t, rfl, hpa, by simp⟩
      | false =>
          obtain ⟨z, hz, hpz⟩ := h
          rcases List.mem_cons.1 hz with rfl | hzt
          · rw [hpa] at hpz; exact absurd hpz (by simp)
          · obtain ⟨l1, x, l2, heq, hx, hl1⟩ := ih ⟨z, hzt, hpz⟩
            refine ⟨a :: l1, x, l2, by rw [heq]; rfl, hx, ?_⟩
            intro w hw
            rcases List.mem_cons.1 hw with rfl | hwl
            · exact hpa
            · exact hl1 w hwl

/-- Helper: a filter holding more than one entry yields an ordered pair of
passing entries of the base list. -/
theorem pair_of_filter {α : Type} (p : α → Bool) (l : List α)
    (h : 1 < (l.filter p).length) :
    ∃ x y, [x, y].Sublist l ∧ p x = true ∧ p y = true := by
  cases hf : l.filter p with
  | nil => rw [hf] at h; simp at h
  | cons x t =>
      cases ht : t with
      | nil => rw [hf, ht] at h; simp at h
      | cons y rest =>
          have hsub : [x, y].Sublist (l.filter p) := by
            rw [hf, ht]
            exact List.sublist_append_left [x, y] rest
          have hx := List.mem_filter.1 (hsub.subset (by simp : x ∈ [x, y]))
          have hy := List.mem_filter.1 (hsub.subset (by simp : y ∈ [x, y]))
          exact ⟨x, y, hsub.trans (List.filter_sublist l), hx.2, hy.2⟩

/-- Helper: an ordered pair of passing entries makes the filter hold more
than one entry. -/
theorem one_lt_filter_of_pair {α : Type} (p : α → Bool) {l : List α} {x y : α}
    (hs : [x, y].Sublist l) (hx : p x = true) (hy : p y = true) :
    1 < (l.filter p).length := by
  have h2 : [x, y].filter p = [x, y] := by simp [hx, hy]
  have hle := (hs.filter p).length_le
  rw [h2] at hle
  simp at hle
  omega

/-- Helper: membership in the insertion-ordered key list is exactly having
a generator in the base list. -/
theorem mem_insertionKeys {α : Type} (f : α → String) (l : List α) (s : String) :
    s ∈ insertionKeys f l ↔ ∃ x ∈ l, f x = s := by
  have aux : ∀ (t : List α) (acc : List String),
      (s ∈ t.foldl (fun acc x => if acc.contains (f x) then acc
        else acc ++ [f x]) acc) ↔ (s ∈ acc ∨ ∃ x ∈ t, f x = s) := by
    intro t
    induction t with
    | nil => intro acc; simp
    | cons a r ih =>
        intro acc
        rw [List.foldl_cons]
        by_cases hc : acc.contains (f a) = true
        · rw [if_pos hc, ih]
          have hmem : f a ∈ acc := List.elem_iff.1 hc
          constructor
          · rintro (h | ⟨x, hx, hfx⟩)
            · exact Or.inl h
            · exact Or.inr ⟨x, List.mem_cons_of_mem a hx, hfx⟩
          · rintro (h | ⟨x, hx, hfx⟩)
            · exact Or.inl h
            · rcases List.mem_cons.1 hx with rfl | hxr
              · exact Or.inl (hfx ▸ hmem)
              · exact Or.inr ⟨x, hxr, hfx⟩
        · rw [if_neg hc, ih]
          constructor
          · rintro (h | ⟨x, hx, hfx⟩)
            · rcases List.mem_append.1 h with h | h
              · exact Or.inl h
              · exact Or.inr ⟨a, List.mem_cons_self a r, (List.mem_singleton.1 h).symm⟩
            · exact Or.inr ⟨x, List.mem_cons_of_mem a hx, hfx⟩
          · rintro (h | ⟨x, hx, hfx⟩)
            · exact Or.inl (List.mem_append.2 (Or.inl h))
            · rcases List.mem_cons.1 hx with rfl | hxr
              · exact Or.inl (List.mem_append.2 (Or.inr (by simp [hfx])))
              · exact Or.inr ⟨x, hxr, hfx⟩
  rw [insertionKeys, aux]
  simp

/-- Helper: a failing market test forces a failing triple test. -/
theorem sameTriple_false_of_market {z sel : SelectionItem}
    (h : sameMarket z sel = false) : sameTriple z sel = false := by
  simp [sameMarket] at h
  simp [sameTriple]
  tauto

/-- Helper: the triple test accepts the selection itself. -/
theorem sameTriple_self (sel : SelectionItem) : sameTriple sel sel = true := by
  simp [sameTriple]

/-- Helper: addSelection preserves the one-pick-per-market invariant. -/
theorem invMarket_add (sel : SelectionItem) (s : List SelectionItem)
    (h : InvMarket s) : InvMarket (addSelection sel s) := by
  unfold addSelection
  split
  · exact List.Pairwise.sublist (List.eraseIdx_sublist s _) h
  · refine List.pairwise_append.2
      ⟨List.Pairwise.sublist (List.filter_sublist s) h,
       List.pairwise_singleton _ _, ?_⟩
    intro a ha b hb
    rcases List.mem_singleton.1 hb with rfl
    have hm := (List.mem_filter.1 ha).2
    simp [sameMarket] at hm
    tauto

/-- C1: when the user's week balance row exists and holds strictly less
than the slip's stake, placeBet fails with the Insufficient balance error
and the store is unchanged: the balance row keeps its balance and
totalbets, and no bets or bet_legs document is created. -/
theorem placeBet_insufficient_spec
    (db : Store) (slip : BetSlip) (userId leagueId weekId displayName : String)
    (b : WeekBalanceDoc)
    (hfind : db.balances.find? (fun x => x.weekid == weekId && x.userid == userId) =
      some b)
    (hlt : b.balance < slip.stake) :
    placeBet slip userId leagueId weekId displayName db =
      (Except.error "Insufficient balance", db) := by
  unfold placeBet getOrCreateUserBalance
  rw [hfind]
  simp [hlt]

/-- Witness for C1: a store whose only row holds 50 rejects a stake of 100
and is left untouched. -/
theorem placeBet_insufficient_witness :
    placeBet slipStake100 "user1" "league1" "week1" "Dana" storeLowEx =
      (Except.error "Insufficient balance", storeLowEx) :=
  placeBet_insufficient_spec storeLowEx slipStake100 "user1" "league1" "week1" "Dana"
    balanceLowEx rfl (by norm_num [balanceLowEx, slipStake100])

/-- C2: when the user's week balance row exists and covers the stake,
placeBet succeeds: it appends exactly one bets document with status
pending, appends one bet_legs document per slip item each with result
pending, and updates the balance row to the old balance minus the stake
with totalbets incremented by one. -/
theorem placeBet_success_spec
    (db : Store) (slip : BetSlip) (userId leagueId weekId displayName : String)
    (b : WeekBalanceDoc)
    (hfind : db.balances.find? (fun x => x.weekid == weekId && x.userid == userId) =
      some b)
    (hge : slip.stake ≤ b.balance) (hn : 1 ≤ slip.items.length) :
    placeBet slip userId leagueId weekId displayName db =
      (Except.ok
        { docId := db.nextId, userId := userId, leagueId := leagueId,
          weekId := weekId,
          betType := if slip.items.length > 1 then "SGM" else "Single",
          stake := slip.stake, totalOdds := slip.totalOdds,
          potentialPayout := slip.potentialPayout, status := "pending" },
       { balances := db.balances.map (fun x =>
           if x.docId == b.docId then
             { x with balance := b.balance - slip.stake,
                      totalbets := b.totalbets + 1 }
           else x),
         bets := db.bets ++
           [{ docId := db.nextId, userId := userId, leagueId := leagueId,
              weekId := weekId,
              betType := if slip.items.length > 1 then "SGM" else "Single",
              stake := slip.stake, totalOdds := slip.totalOdds,
              potentialPayout := slip.potentialPayout, status := "pending" }],
         legs := db.legs ++ slip.items.map (mkBetLeg db.nextId),
         nextId := db.nextId + 1 }) ∧
    (slip.items.map (mkBetLeg db.nextId)).length = slip.items.length ∧
    (∀ leg ∈ slip.items.map (mkBetLeg db.nextId),
      leg.result = "pending" ∧ leg.betId = db.nextId) := by
  refine ⟨?_, List.length_map _ _, ?_⟩
  · unfold placeBet getOrCreateUserBalance
    rw [hfind]
    simp [not_lt.mpr hge]
  · intro leg hleg
    obtain ⟨item, -, rfl⟩ := List.mem_map.1 hleg
    exact ⟨rfl, rfl⟩

/-- Witness for C2: a store whose only row holds 200 accepts a stake of
100, leaving balance 100, totalbets 4, one bet and one leg. -/
theorem placeBet_success_witness :
    placeBet slipStake100 "user1" "league1" "week1" "Dana" storeHighEx =
      (Except.ok
        { docId := storeHighEx.nextId, userId := "user1", leagueId := "league1",
          weekId := "week1",
          betType := if slipStake100.items.length > 1 then "SGM" else "Single",
          stake := slipStake100.stake, totalOdds := slipStake100.totalOdds,
          potentialPayout := slipStake100.potentialPayout, status := "pending" },
       { balances := storeHighEx.balances.map (fun x =>
           if x.docId == balanceHighEx.docId then
             { x with balance := balanceHighEx.balance - slipStake100.stake,
                      totalbets := balanceHighEx.totalbets + 1 }
           else x),
         bets := storeHighEx.bets ++
           [{ docId := storeHighEx.nextId, userId := "user1", leagueId := "league1",
              weekId := "week1",
              betType := if slipStake100.items.length > 1 then "SGM" else "Single",
              stake := slipStake100.stake, totalOdds := slipStake100.totalOdds,
              potentialPayout := slipStake100.potentialPayout, status := "pending" }],
         legs := storeHighEx.legs ++ slipStake100.items.map (mkBetLeg storeHighEx.nextId),
         nextId := storeHighEx.nextId + 1 }) ∧
    (slipStake100.items.map (mkBetLeg storeHighEx.nextId)).length =
      slipStake100.items.length ∧
    (∀ leg ∈ slipStake100.items.map (mkBetLeg storeHighEx.nextId),
      leg.result = "pending" ∧ leg.betId = storeHighEx.nextId) :=
  placeBet_success_spec storeHighEx slipStake100 "user1" "league1" "week1" "Dana"
    balanceHighEx rfl (by norm_num [balanceHighEx, slipStake100])
    (by norm_num [slipStake100])

/-- C3: on the same-game slip the Week page actually builds, with the
head-to-head pick Lakers at odds 2 and the spread pick Lakers +5.5 at odds
1.9 under market type spreads, the computed total odds are the plain
product 3.8 and not the claimed discounted 2 times 1.9 times 0.9; the
third conjunct shows the discount does fire for the singular market type
spread that config.js declares, so the plural label the normalizer emits
is what disables it. -/
theorem correlation_spread_mismatch :
    totalOdds [selEx, spreadEx] = 19 / 5 ∧
    totalOdds [selEx, spreadEx] ≠ 2 * (19 / 10) * (9 / 10) ∧
    totalOdds [selEx, spreadSingularEx] = 2 * (19 / 10) * (9 / 10) := by
  have hr : totalOdds [selEx, spreadEx] = 1 * 2 * (19 / 10) * (1 * 1) := rfl
  have hs : totalOdds [selEx, spreadSingularEx] =
      1 * 2 * (19 / 10) * (9 / 10 * 1) := rfl
  refine ⟨?_, ?_, ?_⟩
  · rw [hr]; norm_num
  · rw [hr]; norm_num
  · rw [hs]; norm_num

/-- C9: on the same-game slip pairing the player-points pick at odds 1.9
with the totals pick at odds 2 as the Week page labels them, the computed
total odds are the plain product 3.8 and not the claimed 1.9 times 2
times 0.95, because the code tests for the singular market type total;
the third conjunct shows the 0.95 factor does fire when the companion is
the head-to-head pick, whose label h2h the code spells correctly. -/
theorem correlation_player_prop_mismatch :
    totalOdds [propOverEx, totalsEx] = 19 / 5 ∧
    totalOdds [propOverEx, totalsEx] ≠ 19 / 10 * 2 * (19 / 20) ∧
    totalOdds [propOverEx, selEx] = 19 / 10 * 2 * (19 / 20) := by
  have hr : totalOdds [propOverEx, totalsEx] = 1 * (19 / 10) * 2 * (1 * 1) := rfl
  have hs : totalOdds [propOverEx, selEx] =
      1 * (19 / 10) * 2 * (1 * (19 / 20)) := rfl
  refine ⟨?_, ?_, ?_⟩
  · rw [hr]; norm_num
  · rw [hr]; norm_num
  · rw [hs]; norm_num

/-- C10: for every evaluation instant the computed week starts at local
midnight on the most recent Tuesday (weekday 2 under the epoch-Thursday
numbering, at most six days back) and ends exactly six days later at
23:59:59.999 local, and equal instants get equal week numbers and season
years. -/
theorem getWeekBounds_spec (now : AESTDate) :
    (getWeekBounds now).1.ms = 0 ∧
    ((getWeekBounds now).1.days + 4) % 7 = 2 ∧
    (getWeekBounds now).1.days ≤ epochDays now ∧
    epochDays now - (getWeekBounds now).1.days < 7 ∧
    (getWeekBounds now).2.days = (getWeekBounds now).1.days + 6 ∧
    (getWeekBounds now).2.ms = 86399999 ∧
    (∀ t u : AESTDate, t = u →
      getWeekNumber t = getWeekNumber u ∧ getSeasonYear t = getSeasonYear u) := by
  refine ⟨rfl, ?_, ?_, ?_, rfl, rfl, ?_⟩
  · show (epochDays now - ((epochDays now + 4) % 7 + 5) % 7 + 4) % 7 = 2
    omega
  · show epochDays now - ((epochDays now + 4) % 7 + 5) % 7 ≤ epochDays now
    omega
  · show epochDays now - (epochDays now - ((epochDays now + 4) % 7 + 5) % 7) < 7
    omega
  · rintro t u rfl
    exact ⟨rfl, rfl⟩

/-- Witness for C10 at the sample instant. -/
theorem getWeekBounds_witness :
    (getWeekBounds nowEx).1.ms = 0 ∧
    ((getWeekBounds nowEx).1.days + 4) % 7 = 2 ∧
    getWeekNumber nowEx = getWeekNumber nowEx :=
  ⟨(getWeekBounds_spec nowEx).1, (getWeekBounds_spec nowEx).2.1,
   ((getWeekBounds_spec nowEx).2.2.2.2.2.2 nowEx nowEx rfl).1⟩

/-- C7 amended: when the slip holds an item with the added selection's
exact (gameId, marketType, selection) triple, addSelection removes the
first such item and appends nothing; adding the same selection twice in a
row returns the slip to its prior state provided no item of the prior
slip shared the selection's (gameId, marketType); and addSelection never
duplicates a market, preserving the one-pick-per-market invariant. -/
theorem addSelection_toggle_spec :
    (∀ (sel : SelectionItem) (prev : List SelectionItem),
        (∃ z ∈ prev, sameTriple z sel = true) →
        ∃ l1 z l2, prev = l1 ++ z :: l2 ∧ sameTriple z sel = true ∧
          (∀ w ∈ l1, sameTriple w sel = false) ∧
          addSelection sel prev = l1 ++ l2) ∧
    (∀ (sel : SelectionItem) (prev : List SelectionItem),
        (∀ z ∈ prev, sameMarket z sel = false) →
        addSelection sel (addSelection sel prev) = prev) ∧
    (∀ (sel : SelectionItem) (prev : List SelectionItem),
        InvMarket prev → InvMarket (addSelection sel prev)) := by
  refine ⟨?_, ?_, fun sel prev h => invMarket_add sel prev h⟩
  · intro sel prev h
    obtain ⟨l1, z, l2, rfl, hz, hl1⟩ := exists_first_split _ prev h
    refine ⟨l1, z, l2, rfl, hz, hl1, ?_⟩
    unfold addSelection
    rw [findIdx_of_split _ z l2 hz l1 0 hl1]
    show (l1 ++ z :: l2).eraseIdx (0 + l1.length) = l1 ++ l2
    rw [Nat.zero_add]
    exact eraseIdx_append_length l1 z l2
  · intro sel prev h
    have h1 : addSelection sel prev = prev ++ [sel] := by
      unfold addSelection
      rw [findIdx_none_of_all _ prev 0
        (fun z hz => sameTriple_false_of_market (h z hz))]
      show prev.filter (fun item => !(sameMarket item sel)) ++ [sel] = prev ++ [sel]
      rw [List.filter_eq_self.2 (fun a ha => by simp [h a ha])]
    rw [h1]
    unfold addSelection
    rw [findIdx_of_split (fun item => sameTriple item sel) sel []
      (sameTriple_self sel) prev 0
      (fun z hz => sameTriple_false_of_market (h z hz))]
    show (prev ++ sel :: []).eraseIdx (0 + prev.length) = prev
    rw [Nat.zero_add, eraseIdx_append_length prev sel []]
    exact List.append_nil prev

/-- Counterexample for C7 as stated: starting from the slip holding the
Lakers head-to-head pick, adding the Kings pick twice in a row empties the
slip instead of restoring the Lakers pick, because the first add also
replaced the Lakers pick as a same-market rival. -/
theorem addSelection_toggle_counterexample :
    addSelection selOtherEx (addSelection selOtherEx [selEx]) ≠ [selEx] := by
  decide

/-- Witness for C7: on a slip free of the same market, adding the same
selection twice restores the slip. -/
theorem addSelection_toggle_witness :
    addSelection selEx (addSelection selEx []) = [] :=
  addSelection_toggle_spec.2.1 selEx [] (by simp)

/-- C8: on a slip satisfying the one-pick-per-market invariant, adding a
selection that shares a held item's (gameId, marketType) but differs in
its selection string removes that prior item, appends the new selection,
and keeps the invariant, so the slip still holds at most one pick per
market per game. -/
theorem addSelection_replace_spec
    (sel x : SelectionItem) (prev : List SelectionItem)
    (hinv : InvMarket prev) (hmem : x ∈ prev)
    (hg : x.gameId = sel.gameId) (hm : x.marketType = sel.marketType)
    (hs : x.selection ≠ sel.selection) :
    addSelection sel prev = prev.erase x ++ [sel] ∧
      InvMarket (addSelection sel prev) := by
  refine ⟨?_, invMarket_add sel prev hinv⟩
  obtain ⟨l1, l2, rfl⟩ := List.append_of_mem hmem
  have hpw := List.pairwise_append.1 hinv
  have hl1 : ∀ z ∈ l1, sameMarket z sel = false := by
    intro z hz
    have hr : ¬(z.gameId = x.gameId ∧ z.marketType = x.marketType) :=
      hpw.2.2 z hz x (by simp)
    cases hsm : sameMarket z sel with
    | false => rfl
    | true =>
        simp [sameMarket] at hsm
        exact absurd ⟨hg ▸ hsm.1, hm ▸ hsm.2⟩ hr
  have hl2 : ∀ z ∈ l2, sameMarket z sel = false := by
    intro z hz
    have hr : ¬(x.gameId = z.gameId ∧ x.marketType = z.marketType) :=
      (List.pairwise_cons.1 hpw.2.1).1 z hz
    cases hsm : sameMarket z sel with
    | false => rfl
    | true =>
        simp [sameMarket] at hsm
        exact absurd ⟨hg.trans hsm.1.symm, hm.trans hsm.2.symm⟩ hr
  have hxz : sameTriple x sel = false := by
    simp [sameTriple, hs]
  have hall : ∀ z ∈ l1 ++ x :: l2, sameTriple z sel = false := by
    intro z hz
    rcases List.mem_append.1 hz with hz1 | hz2
    · exact sameTriple_false_of_market (hl1 z hz1)
    · rcases List.mem_cons.1 hz2 with rfl | hz3
      · exact hxz
      · exact sameTriple_false_of_market (hl2 z hz3)
  unfold addSelection
  rw [findIdx_none_of_all _ _ 0 hall]
  show (l1 ++ x :: l2).filter (fun item => !(sameMarket item sel)) ++ [sel] =
    (l1 ++ x :: l2).erase x ++ [sel]
  have hxl1 : x ∉ l1 := by
    intro hx1
    have := hl1 x hx1
    simp [sameMarket, hg, hm] at this
  rw [List.erase_append_right _ hxl1, List.erase_cons_head,
    List.filter_append, List.filter_cons]
  have hxm : (!(sameMarket x sel)) = false := by
    simp [sameMarket, hg, hm]
  rw [hxm]
  simp only [Bool.false_eq_true, if_false]
  rw [List.filter_eq_self.2 (fun a ha => by simp [hl1 a ha]),
    List.filter_eq_self.2 (fun a ha => by simp [hl2 a ha])]

/-- Witness for C8: adding the Kings pick over the slip holding the Lakers
pick replaces it. -/
theorem addSelection_replace_witness :
    addSelection selOtherEx [selEx] = ([selEx].erase selEx) ++ [selOtherEx] ∧
      InvMarket (addSelection selOtherEx [selEx]) :=
  addSelection_replace_spec selOtherEx selEx [selEx]
    (List.pairwise_singleton _ _) (by simp) rfl rfl (by decide)

/-- C4 amended: getConflicts raises a player-prop conflict exactly when
some game's selections include two player-prop picks sharing the grouping
key playerName dash marketType; any such pair conflicts, whatever the
Over or Under direction of the two picks. -/
theorem player_prop_conflict_iff (items : List SelectionItem) :
    (∃ c ∈ getConflicts items, c.type = "player_prop_conflict") ↔
      ∃ x y, [x, y].Sublist items ∧ x.gameId = y.gameId ∧
        isPlayerProp x = true ∧ isPlayerProp y = true ∧
        propKey x = propKey y := by
  constructor
  · rintro ⟨c, hc, htype⟩
    unfold getConflicts at hc
    obtain ⟨g, -, hcg⟩ := List.mem_flatMap.1 hc
    dsimp only at hcg
    rcases List.mem_append.1 hcg with hab | hprop
    · rcases List.mem_append.1 hab with ha | hb
      · unfold h2hConflicts at ha
        split at ha
        · rcases List.mem_singleton.1 ha with rfl
          simp at htype
        · simp at ha
      · unfold totalConflicts at hb
        dsimp only at hb
        split at hb
        · split at hb
          · rcases List.mem_singleton.1 hb with rfl
            simp at htype
          · simp at hb
        · simp at hb
    · unfold propConflicts at hprop
      obtain ⟨k, -, hfk⟩ := List.mem_filterMap.1 hprop
      cases hmatch : ((items.filter (fun i => i.gameId == g)).filter
          isPlayerProp).filter (fun p => propKey p == k) with
      | nil => rw [hmatch] at hfk; simp at hfk
      | cons p1 t =>
          cases t with
          | nil => rw [hmatch] at hfk; simp at hfk
          | cons p2 rest =>
              have hsubk : [p1, p2].Sublist
                  (((items.filter (fun i => i.gameId == g)).filter
                    isPlayerProp).filter (fun p => propKey p == k)) := by
                rw [hmatch]
                exact List.sublist_append_left [p1, p2] rest
              have h1 := List.mem_filter.1 (hsubk.subset (by simp : p1 ∈ [p1, p2]))
              have h2 := List.mem_filter.1 (hsubk.subset (by simp : p2 ∈ [p1, p2]))
              have h1b := List.mem_filter.1 h1.1
              have h2b := List.mem_filter.1 h2.1
              have h1c := List.mem_filter.1 h1b.1
              have h2c := List.mem_filter.1 h2b.1
              refine ⟨p1, p2, ?_, ?_, h1b.2, h2b.2, ?_⟩
              · exact hsubk.trans ((List.filter_sublist _).trans
                  ((List.filter_sublist _).trans (List.filter_sublist _)))
              · have := (beq_iff_eq.1 h1c.2).trans (beq_iff_eq.1 h2c.2).symm
                exact this
              · exact (beq_iff_eq.1 h1.2).trans (beq_iff_eq.1 h2.2).symm
  · rintro ⟨x, y, hsub, hgid, hx, hy, hkey⟩
    have hxmem : x ∈ items := hsub.subset (by simp)
    have hsubgame : [x, y].Sublist (items.filter (fun i => i.gameId == x.gameId)) := by
      have heq : [x, y].filter (fun i => i.gameId == x.gameId) = [x, y] := by
        simp [← hgid]
      exact heq ▸ hsub.filter _
    have hsubprops : [x, y].Sublist
        ((items.filter (fun i => i.gameId == x.gameId)).filter isPlayerProp) := by
      have heq : [x, y].filter isPlayerProp = [x, y] := by simp [hx, hy]
      exact heq ▸ hsubgame.filter _
    have hxprops : x ∈ (items.filter (fun i => i.gameId == x.gameId)).filter
        isPlayerProp := hsubprops.subset (by simp)
    have hlen : 1 < (((items.filter (fun i => i.gameId == x.gameId)).filter
        isPlayerProp).filter (fun p => propKey p == propKey x)).length := by
      refine one_lt_filter_of_pair _ hsubprops ?_ ?_
      · simp
      · simp [hkey]
    cases hmatch : ((items.filter (fun i => i.gameId == x.gameId)).filter
        isPlayerProp).filter (fun p => propKey p == propKey x) with
    | nil => rw [hmatch] at hlen; simp at hlen
    | cons p1 t =>
        cases t with
        | nil => rw [hmatch] at hlen; simp at hlen
        | cons p2 rest =>
            refine ⟨⟨"player_prop_conflict",
              "Cannot select both Over and Under for " ++
                p1.playerName.getD "undefined"⟩, ?_, rfl⟩
            unfold getConflicts
            refine List.mem_flatMap.2 ⟨x.gameId,
              (mem_insertionKeys _ _ _).2 ⟨x, hxmem, rfl⟩, ?_⟩
            dsimp only
            refine List.mem_append.2 (Or.inr ?_)
            unfold propConflicts
            refine List.mem_filterMap.2 ⟨propKey x,
              (mem_insertionKeys _ _ _).2 ⟨x, hxprops, rfl⟩, ?_⟩
            dsimp only
            rw [hmatch]

/-- Counterexample for C4 as stated: the slip holding two Over picks on
the same player, prop type and game at different lines draws a
player-prop conflict although it holds no Under selection at all. -/
theorem player_prop_conflict_counterexample :
    (∃ c ∈ getConflicts [propOverEx, propOverEx2],
      c.type = "player_prop_conflict") ∧
      (∀ item ∈ ([propOverEx, propOverEx2] : List SelectionItem),
        strIncludes item.selection "Under" = false) := by
  decide

/-- Helper: under the one-pick-per-market invariant and an injective
grouping key, no clause of getConflicts fires. -/
theorem getConflicts_nil_of_inv (s : List SelectionItem) (hinv : InvMarket s)
    (hkey : KeyInj s) : getConflicts s = [] := by
  unfold getConflicts
  rw [List.flatMap_eq_nil_iff]
  intro g hg
  dsimp only
  have hpair : ∀ x y : SelectionItem,
      [x, y].Sublist (s.filter (fun i => i.gameId == g)) →
      x.marketType = y.marketType → False := by
    intro x y hsub hmt
    have hx := List.mem_filter.1 (hsub.subset (by simp : x ∈ [x, y]))
    have hy := List.mem_filter.1 (hsub.subset (by simp : y ∈ [x, y]))
    have hrel : ¬(x.gameId = y.gameId ∧ x.marketType = y.marketType) := by
      have hp : List.Pairwise
          (fun a b => ¬(a.gameId = b.gameId ∧ a.marketType = b.marketType))
          [x, y] :=
        List.Pairwise.sublist (hsub.trans (List.filter_sublist s)) hinv
      exact (List.pairwise_cons.1 hp).1 y (by simp)
    exact hrel ⟨(beq_iff_eq.1 hx.2).trans (beq_iff_eq.1 hy.2).symm, hmt⟩
  have hh : h2hConflicts (s.filter (fun i => i.gameId == g)) = [] := by
    unfold h2hConflicts
    rw [if_neg]
    intro hlen
    obtain ⟨x, y, hsub, hx, hy⟩ := pair_of_filter _ _ hlen
    exact hpair x y hsub ((beq_iff_eq.1 hx).trans (beq_iff_eq.1 hy).symm)
  have ht : totalConflicts (s.filter (fun i => i.gameId == g)) = [] := by
    unfold totalConflicts
    rw [if_neg]
    intro hlen
    obtain ⟨x, y, hsub, hx, hy⟩ := pair_of_filter _ _ hlen
    exact hpair x y hsub ((beq_iff_eq.1 hx).trans (beq_iff_eq.1 hy).symm)
  have hp : propConflicts (s.filter (fun i => i.gameId == g)) = [] := by
    unfold propConflicts
    rw [List.filterMap_eq_nil_iff]
    intro k hk
    cases hmatch : ((s.filter (fun i => i.gameId == g)).filter
        isPlayerProp).filter (fun p => propKey p == k) with
    | nil => rfl
    | cons p1 t =>
        cases t with
        | nil => rfl
        | cons p2 rest =>
            exfalso
            have hsubk : [p1, p2].Sublist
                (((s.filter (fun i => i.gameId == g)).filter
                  isPlayerProp).filter (fun p => propKey p == k)) := by
              rw [hmatch]
              exact List.sublist_append_left [p1, p2] rest
            have h1 := List.mem_filter.1 (hsubk.subset (by simp : p1 ∈ [p1, p2]))
            have h2 := List.mem_filter.1 (hsubk.subset (by simp : p2 ∈ [p1, p2]))
            have hsubgame : [p1, p2].Sublist (s.filter (fun i => i.gameId == g)) :=
              hsubk.trans ((List.filter_sublist _).trans (List.filter_sublist _))
            have h1s : p1 ∈ s :=
              (hsubgame.trans (List.filter_sublist s)).subset (by simp)
            have h2s : p2 ∈ s :=
              (hsubgame.trans (List.filter_sublist s)).subset
                (by simp : p2 ∈ [p1, p2])
            have hmt : p1.marketType = p2.marketType :=
              hkey p1 h1s p2 h2s
                ((beq_iff_eq.1 h1.2).trans (beq_iff_eq.1 h2.2).symm)
            exact hpair p1 p2 hsubgame hmt
  rw [hh, ht, hp]
  rfl

/-- C5 amended: every slip state reachable through addSelection,
removeSelection and clearBetSlip holds at most one selection per
(gameId, marketType) pair, and, whenever the selections' grouping keys
separate markets (as the application's dash-free market types always do),
getConflicts is empty and hasConflict is false, so placement is never
blocked by a conflict. -/
theorem reachable_slip_spec (s : List SelectionItem) (h : Reachable s) :
    InvMarket s ∧
      (KeyInj s → getConflicts s = [] ∧ hasConflict s = false) := by
  have hinv : InvMarket s := by
    induction h with
    | empty => exact List.Pairwise.nil
    | add sel hr ih => exact invMarket_add _ _ ih
    | remove i hr ih =>
        exact List.Pairwise.sublist (List.eraseIdx_sublist _ _) ih
    | clear hr ih => exact List.Pairwise.nil
  refine ⟨hinv, fun hkey => ?_⟩
  have hnil := getConflicts_nil_of_inv s hinv hkey
  exact ⟨hnil, by simp [hasConflict, hnil]⟩

/-- Counterexample for C5 as stated: two adversarial selections with
dashes inside playerName and marketType collide in the grouping key, so a
reachable two-item slip on distinct markets still draws a conflict. -/
theorem reachable_slip_counterexample :
    Reachable (addSelection oddKeyEx2 (addSelection oddKeyEx1 [])) ∧
      getConflicts (addSelection oddKeyEx2 (addSelection oddKeyEx1 [])) ≠ [] :=
  ⟨Reachable.add oddKeyEx2 (Reachable.add oddKeyEx1 Reachable.empty), by decide⟩

/-- Witness for C5 on the one-element reachable slip. -/
theorem reachable_slip_witness :
    InvMarket (addSelection selEx []) ∧
      getConflicts (addSelection selEx []) = [] ∧
      hasConflict (addSelection selEx []) = false := by
  have h := reachable_slip_spec _ (Reachable.add selEx Reachable.empty)
  refine ⟨h.1, h.2 ?_⟩
  show KeyInj [selEx]
  intro x hx y hy hk
  rcases List.mem_singleton.1 hx with rfl
  rcases List.mem_singleton.1 hy with rfl
  rfl

/-- Helper: inserting one row permutes the row onto the list. -/
theorem sortInsert_perm (l : List WeekBalanceDoc) (x : WeekBalanceDoc) :
    (sortInsert l x).Perm (x :: l) := by
  induction l with
  | nil => exact List.Perm.refl _
  | cons y rest ih =>
      unfold sortInsert
      by_cases h : leaderboardLE y x = true
      · rw [if_pos h]
        exact (ih.cons y).trans (List.Perm.swap x y rest)
      · rw [if_neg h]

/-- Helper: the stable sort permutes its input. -/
theorem sortBalances_perm (l : List WeekBalanceDoc) : (sortBalances l).Perm l := by
  have aux : ∀ (t acc : List WeekBalanceDoc),
      (t.foldl sortInsert acc).Perm (acc ++ t) := by
    intro t
    induction t with
    | nil => intro acc; simp
    | cons a r ih =>
        intro acc
        rw [List.foldl_cons]
        refine (ih (sortInsert acc a)).trans ?_
        refine (((sortInsert_perm acc a).append_right r).trans ?_)
        exact List.perm_middle.symm
  simpa using aux l []

/-- Helper: the comparator is antisymmetric as a numeric function. -/
theorem leaderboardCmp_neg (a b : WeekBalanceDoc) :
    leaderboardCmp b a = -leaderboardCmp a b := by
  unfold leaderboardCmp
  by_cases h1 : b.balance - a.balance ≠ 0
  · have h1b : a.balance - b.balance ≠ 0 := fun h => h1 (by linarith)
    rw [if_pos h1, if_pos h1b]
    ring
  · have h1a : b.balance - a.balance = 0 := not_ne_iff.1 h1
    have h1b : ¬(a.balance - b.balance ≠ 0) := not_ne_iff.2 (by linarith)
    rw [if_neg h1, if_neg h1b]
    by_cases h2 : b.highestwinpayout - a.highestwinpayout ≠ 0
    · have h2b : a.highestwinpayout - b.highestwinpayout ≠ 0 :=
        fun h => h2 (by linarith)
      rw [if_pos h2, if_pos h2b]
      ring
    · have h2a : b.highestwinpayout - a.highestwinpayout = 0 := not_ne_iff.1 h2
      have h2b : ¬(a.highestwinpayout - b.highestwinpayout ≠ 0) :=
        not_ne_iff.2 (by linarith)
      rw [if_neg h2, if_neg h2b]
      cases a.lastwintime <;> cases b.lastwintime <;> push_cast <;> ring

/-- Helper: the comparator order is total. -/
theorem leaderboardLE_total (a b : WeekBalanceDoc) :
    leaderboardLE a b = true ∨ leaderboardLE b a = true := by
  unfold leaderboardLE
  rcases le_or_lt (leaderboardCmp a b) 0 with h | h
  · exact Or.inl (decide_eq_true h)
  · refine Or.inr (decide_eq_true ?_)
    rw [leaderboardCmp_neg]
    linarith

/-- Helper: inserting into a comparator-sorted list keeps it sorted. -/
theorem chain'_sortInsert (x : WeekBalanceDoc) :
    ∀ (l : List WeekBalanceDoc),
      List.Chain' (fun a b => leaderboardLE a b = true) l →
      List.Chain' (fun a b => leaderboardLE a b = true) (sortInsert l x) := by
  intro l
  induction l with
  | nil => intro _; exact List.chain'_singleton x
  | cons y rest ih =>
      intro h
      unfold sortInsert
      by_cases hyx : leaderboardLE y x = true
      · rw [if_pos hyx]
        refine List.chain'_cons'.2 ⟨?_, ih h.tail⟩
        intro b hb
        cases rest with
        | nil =>
            simp [sortInsert] at hb
            subst hb
            exact hyx
        | cons z rest2 =>
            unfold sortInsert at hb
            by_cases hzx : leaderboardLE z x = true
            · rw [if_pos hzx] at hb
              simp at hb
              subst hb
              exact (List.chain'_cons.1 h).1
            · rw [if_neg hzx] at hb
              simp at hb
              subst hb
              exact hyx
      · rw [if_neg hyx]
        have hxy : leaderboardLE x y = true := by
          rcases leaderboardLE_total y x with hh | hh
          · exact absurd hh hyx
          · exact hh
        exact List.chain'_cons.2 ⟨hxy, h⟩

/-- Helper: the stable sort's output is comparator-sorted. -/
theorem chain'_sortBalances (l : List WeekBalanceDoc) :
    List.Chain' (fun a b => leaderboardLE a b = true) (sortBalances l) := by
  have aux : ∀ (t acc : List WeekBalanceDoc),
      List.Chain' (fun a b => leaderboardLE a b = true) acc →
      List.Chain' (fun a b => leaderboardLE a b = true) (t.foldl sortInsert acc) := by
    intro t
    induction t with
    | nil => intro acc h; exact h
    | cons a r ih =>
        intro acc h
        rw [List.foldl_cons]
        exact ih _ (chain'_sortInsert a acc h)
  exact aux l [] List.chain'_nil

/-- Helper: a comparator step unfolds to the spec ordering: balance
descending, then payout descending, then last win time ascending whenever
both are recorded. -/
theorem leaderboardLE_spec {a b : WeekBalanceDoc}
    (hle : leaderboardLE a b = true) :
    b.balance ≤ a.balance ∧
    (b.balance = a.balance → b.highestwinpayout ≤ a.highestwinpayout) ∧
    (b.balance = a.balance → b.highestwinpayout = a.highestwinpayout →
      ∀ ta tb : ℤ, a.lastwintime = some ta → b.lastwintime = some tb →
        ta ≤ tb) := by
  have hc : leaderboardCmp a b ≤ 0 := of_decide_eq_true hle
  unfold leaderboardCmp at hc
  by_cases h1 : b.balance - a.balance ≠ 0
  · rw [if_pos h1] at hc
    exact ⟨by linarith, fun he => absurd (by rw [he, sub_self]) h1,
      fun he _ => absurd (by rw [he, sub_self]) h1⟩
  · rw [if_neg h1] at hc
    have hbal : b.balance = a.balance := sub_eq_zero.1 (not_ne_iff.1 h1)
    by_cases h2 : b.highestwinpayout - a.highestwinpayout ≠ 0
    · rw [if_pos h2] at hc
      exact ⟨le_of_eq hbal, fun _ => by linarith,
        fun _ hpe => absurd (by rw [hpe, sub_self]) h2⟩
    · rw [if_neg h2] at hc
      have hpay : b.highestwinpayout = a.highestwinpayout :=
        sub_eq_zero.1 (not_ne_iff.1 h2)
      refine ⟨le_of_eq hbal, fun _ => le_of_eq hpay, ?_⟩
      intro _ _ ta tb hta htb
      rw [hta, htb] at hc
      have hc2 : ((ta - tb : ℤ) : ℚ) ≤ 0 := hc
      have hc3 : (ta - tb : ℤ) ≤ 0 := by exact_mod_cast hc2
      omega

/-- Helper: a chain transfers along an implication valid on the list's
members. -/
theorem chain'_imp_mem {α : Type} {R S : α → α → Prop} :
    ∀ (l : List α), List.Chain' R l →
      (∀ a ∈ l, ∀ b ∈ l, R a b → S a b) → List.Chain' S l := by
  intro l
  induction l with
  | nil => intro _ _; exact List.chain'_nil
  | cons a t ih =>
      intro h himp
      cases t with
      | nil => exact List.chain'_singleton a
      | cons b r =>
          refine List.chain'_cons.2 ⟨?_, ?_⟩
          · exact himp a (by simp) b (by simp) (List.chain'_cons.1 h).1
          · exact ih (List.chain'_cons.1 h).2
              (fun x hx y hy hr => himp x (by simp [hx]) y (by simp [hy]) hr)

/-- Helper: attaching one-based ranks to the positions of a list. -/
theorem enum_snd_ranks {α : Type} (l : List α) :
    l.enum.map (fun p => p.1 + 1) = List.range' 1 l.length := by
  have h1 : l.enum.map (fun p => p.1 + 1) =
      (l.enum.map Prod.fst).map (fun i => i + 1) := by
    rw [List.map_map]
    rfl
  rw [h1, List.enum_map_fst, List.range'_eq_map_range]
  exact List.map_congr_left (fun a _ => Nat.add_comm a 1)

/-- C6: the weekly leaderboard is a permutation of the week's balance rows
carrying ranks 1, 2, and so on in order, adjacent rows descend in balance,
tie on balance only with payout descending, and tie on both only with
recorded last win times ascending; and the worked example with A and B on
1200 (B holding the higher payout) and C on 900 comes out B, A, C. -/
theorem getLeaderboard_order :
    (∀ (weekId : String) (bs : List WeekBalanceDoc),
      ((getLeaderboard weekId bs).map Prod.fst).Perm
        (bs.filter (fun b => b.weekid == weekId)) ∧
      (getLeaderboard weekId bs).map Prod.snd =
        List.range' 1 (bs.filter (fun b => b.weekid == weekId)).length ∧
      List.Chain' (fun p q =>
        q.1.balance ≤ p.1.balance ∧
        (q.1.balance = p.1.balance →
          q.1.highestwinpayout ≤ p.1.highestwinpayout) ∧
        (q.1.balance = p.1.balance →
          q.1.highestwinpayout = p.1.highestwinpayout →
          ∀ tp tq : ℤ, p.1.lastwintime = some tp →
            q.1.lastwintime = some tq → tp ≤ tq))
        (getLeaderboard weekId bs)) ∧
    getLeaderboard "week1" [lbA, lbB, lbC] = [(lbB, 1), (lbA, 2), (lbC, 3)] := by
  constructor
  · intro weekId bs
    refine ⟨?_, ?_, ?_⟩
    · unfold getLeaderboard
      dsimp only
      rw [List.map_map]
      have hcomp : (Prod.fst ∘ fun p : ℕ × WeekBalanceDoc => (p.2, p.1 + 1)) =
          (Prod.snd : ℕ × WeekBalanceDoc → WeekBalanceDoc) := rfl
      rw [hcomp, List.enum_map_snd]
      exact sortBalances_perm _
    · unfold getLeaderboard
      dsimp only
      rw [List.map_map]
      have hcomp : (Prod.snd ∘ fun p : ℕ × WeekBalanceDoc => (p.2, p.1 + 1)) =
          (fun p : ℕ × WeekBalanceDoc => p.1 + 1) := rfl
      rw [hcomp, enum_snd_ranks, (sortBalances_perm _).length_eq]
    · unfold getLeaderboard
      dsimp only
      refine (List.chain'_map _).2 ?_
      have h1 : List.Chain' (fun a b : WeekBalanceDoc =>
          b.balance ≤ a.balance ∧
          (b.balance = a.balance →
            b.highestwinpayout ≤ a.highestwinpayout) ∧
          (b.balance = a.balance →
            b.highestwinpayout = a.highestwinpayout →
            ∀ ta tb : ℤ, a.lastwintime = some ta →
              b.lastwintime = some tb → ta ≤ tb))
          (sortBalances (bs.filter (fun b => b.weekid == weekId))) :=
        chain'_imp_mem _ (chain'_sortBalances _)
          (fun a _ b _ hr => leaderboardLE_spec hr)
      exact (List.chain'_map Prod.snd).1 (by rw [List.enum_map_snd]; exact h1)
  · show getLeaderboard "week1" [lbA, lbB, lbC] = [(lbB, 1), (lbA, 2), (lbC, 3)]
    unfold getLeaderboard sortBalances
    norm_num [lbA, lbB, lbC, sortInsert, leaderboardLE, leaderboardCmp,
      List.enum, List.enumFrom]

end Swishpot
